import Mathlib

/-!
Shallow embedding of the markdown-combiner CLI tool (two variants:
the denylist/mixed-content variant `combine.ts` and the
allowlist/uniform-raw variant), together with theorems settling the
specification claims about it.

Strings are modelled as Lean `String`; the JavaScript string
primitives used by the tool (`includes`, `endsWith`, `indexOf`,
`match` against the regexes the code builds, default `Array#sort`)
are embedded below operating on the underlying `List Char`.
-/

namespace MDCombine

/-- Is `p` a prefix of `s` (character lists)? -/
def startsWithChars : List Char → List Char → Bool
  | [], _ => true
  | _ :: _, [] => false
  | p :: ps, c :: cs => p == c && startsWithChars ps cs

/-- Does `pat` occur as a contiguous segment of `s`? -/
def infixChars (pat s : List Char) : Bool :=
  match s with
  | [] => startsWithChars pat []
  | c :: cs => startsWithChars pat (c :: cs) || infixChars pat cs

/-- JS `String#includes`: substring containment. -/
def jsIncludes (s sub : String) : Bool := infixChars sub.data s.data

/-- JS `String#endsWith`: suffix test. -/
def jsEndsWith (s sfx : String) : Bool := startsWithChars sfx.data.reverse s.data.reverse

/-- JS `Array#indexOf`: index of the first occurrence, `none` when absent
(the source encodes absence as `-1`). -/
def jsIndexOf (l : List String) (x : String) : Option Nat :=
  match l with
  | [] => none
  | y :: ys => if y = x then some 0 else (jsIndexOf ys x).map (· + 1)

/-- `getArgValue(args, flag, defaultValue)` from the source: the token
immediately after the first occurrence of `flag`, else the default. -/
def getArgValue (args : List String) (flag defaultValue : String) : String :=
  match jsIndexOf args flag with
  | none => defaultValue
  | some flagIndex =>
    if flagIndex + 1 < args.length then args.getD (flagIndex + 1) defaultValue
    else defaultValue

/-! ### The regexes built by the denylist filter

`file.name.match(new RegExp(pattern.replace('*', '.*')))` compiles the
pattern string into a regex after replacing the FIRST `*` with `.*`.
The resulting regexes use only literal characters, the `.` wildcard and
a starred atom, and `String#match` is an unanchored (substring) test,
so we embed exactly that fragment. -/

/-- A regex atom: the `.` wildcard or a literal character. -/
inductive RAtom where
  | anyChar
  | lit (c : Char)
deriving DecidableEq

/-- A regex token: an atom, possibly starred. -/
structure RTok where
  atom : RAtom
  star : Bool
deriving DecidableEq

def atomMatches : RAtom → Char → Bool
  | .anyChar, _ => true
  | .lit c, x => c == x

/-- Parse the regex source strings the tool builds (`.` is the wildcard,
a following `*` stars the previous atom, everything else is literal). -/
def parseRegex : List Char → List RTok
  | [] => []
  | '.' :: '*' :: rest => ⟨.anyChar, true⟩ :: parseRegex rest
  | '.' :: rest => ⟨.anyChar, false⟩ :: parseRegex rest
  | c :: '*' :: rest => ⟨.lit c, true⟩ :: parseRegex rest
  | c :: rest => ⟨.lit c, false⟩ :: parseRegex rest

/-- Matching loop with an explicit recursion bound. Every recursive
call decreases `toks.length + s.length`, so with the bound chosen in
`matchHere` below the `0` case is never reached; the bound only makes
the definition structurally recursive, hence evaluable. -/
def matchHereFuel : Nat → List RTok → List Char → Bool
  | 0, _, _ => false
  | _ + 1, [], _ => true
  | k + 1, t :: ts, [] => if t.star then matchHereFuel k ts [] else false
  | k + 1, t :: ts, c :: cs =>
    if t.star then
      matchHereFuel k ts (c :: cs) || (atomMatches t.atom c && matchHereFuel k (t :: ts) cs)
    else
      atomMatches t.atom c && matchHereFuel k ts cs

/-- Does the token list match a prefix of `s` (the rest of `s` is
ignored, as a JS regex is unanchored at the right)? -/
def matchHere (toks : List RTok) (s : List Char) : Bool :=
  matchHereFuel (toks.length + s.length + 1) toks s

/-- JS `String#match` as a Boolean: the regex matches at some position. -/
def regexTest (toks : List RTok) (s : List Char) : Bool :=
  (List.range (s.length + 1)).any (fun i => matchHere toks (s.drop i))

/-- `pattern.replace('*', '.*')`: JS `replace` with a string pattern
replaces only the first occurrence. -/
def replaceFirstStar : List Char → List Char
  | [] => []
  | c :: rest => if c == '*' then '.' :: '*' :: rest else c :: replaceFirstStar rest

/-- The test the source performs per denylist pattern:
`name.match(new RegExp(pattern.replace('*', '.*')))` is truthy. -/
def jsMatchTest (pat nm : String) : Bool :=
  regexTest (parseRegex (replaceFirstStar pat.data)) nm.data

/-- Glob semantics as the spec words them: `*` expands to zero or more
characters, everything else matches literally, the whole filename must
match. A second, clearly named definition following the words of the
spec, for comparison with the code-derived `jsMatchTest`. -/
def specGlobFuel : Nat → List Char → List Char → Bool
  | 0, _, _ => false
  | _ + 1, [], [] => true
  | _ + 1, [], _ :: _ => false
  | k + 1, '*' :: ps, [] => specGlobFuel k ps []
  | k + 1, '*' :: ps, c :: cs =>
    specGlobFuel k ps (c :: cs) || specGlobFuel k ('*' :: ps) cs
  | _ + 1, _ :: _, [] => false
  | k + 1, c :: ps, x :: cs => c == x && specGlobFuel k ps cs

def specGlobMatches (p s : List Char) : Bool :=
  specGlobFuel (p.length + s.length + 1) p s

/-- `specGlobMatches` on strings. -/
def specGlobMatchesStr (pat s : String) : Bool := specGlobMatches pat.data s.data

/-! ### The denylist filter of `combine.ts` -/

/-- A directory entry as returned by `readdir` with `withFileTypes`. -/
structure Dirent where
  parentPath : String
  name : String
  isFile : Bool
deriving DecidableEq

def excludeFolders : List String := [".git", "tmp", "node_modules", "dist", "build"]

def excludeFiles : List String :=
  ["*.DS_Store", "*.log", "*.tmp", "package-lock.json", "yarn.lock", "bun.lockb"]

/-- `excludeFolders.some((folder) => file.parentPath.includes(folder))`. -/
def isExcludedFolderPath (pp : String) : Bool :=
  excludeFolders.any (fun folder => jsIncludes pp folder)

/-- `excludeFiles.some((pattern) => file.name.match(new RegExp(pattern.replace('*', '.*'))))`. -/
def isExcludedFileName (nm : String) : Bool :=
  excludeFiles.any (fun pat => jsMatchTest pat nm)

/-- The filter predicate of `combine.ts`:
`!isExcludedFolder && !isExcludedFile && file.isFile()`. -/
def keepFile (f : Dirent) : Bool :=
  !isExcludedFolderPath f.parentPath && !isExcludedFileName f.name && f.isFile

/-! ### JS default `Array#sort`

With no comparator, `Array#sort` compares the string conversions of the
elements, and since ES2019 the sort is stable. We embed it as a stable
insertion sort on a strict-less-than test over the sort keys. For an
array of strings the key is the string itself (code-unit order, which
for the ASCII names involved is codepoint order); for an array of
`Dirent` objects the string conversion of every element is
`"[object Object]"`, so all keys are equal and the stable sort leaves
the array unchanged. -/

/-- Strict codepoint-lexicographic order on character lists. -/
def lexLt (a b : List Char) : Bool :=
  match a, b with
  | [], [] => false
  | [], _ :: _ => true
  | _ :: _, [] => false
  | x :: xs, y :: ys => if x == y then lexLt xs ys else decide (x < y)

def jsStrLt (a b : String) : Bool := lexLt a.data b.data

/-- Stable insertion into a sorted list: `x` goes before the first
element not strictly below it. -/
def insertOrderedBy (lt : α → α → Bool) (x : α) : List α → List α
  | [] => [x]
  | y :: ys => if lt y x then y :: insertOrderedBy lt x ys else x :: y :: ys

/-- Stable insertion sort by a strict comparison. -/
def stableSortBy (lt : α → α → Bool) : List α → List α
  | [] => []
  | x :: xs => insertOrderedBy lt x (stableSortBy lt xs)

/-- String conversion of a `Dirent` (no custom `toString`). -/
def direntToString (_ : Dirent) : String := "[object Object]"

/-- `.sort()` on the filtered `Dirent` array in `combine.ts`. -/
def jsSortDirents (l : List Dirent) : List Dirent :=
  stableSortBy (fun a b => jsStrLt (direntToString a) (direntToString b)) l

/-- `.sort()` on the filtered relative-path strings in the allowlist variant. -/
def jsSortStrings (l : List String) : List String := stableSortBy jsStrLt l

/-! ### The pipeline -/

/-- `join(a, b)` for the simple path shapes the tool produces. -/
def joinPath (a b : String) : String := a ++ "/" ++ b

/-- The fixed title fragment `# Combined Documentation\n`. -/
def titleLine : String := "# Combined Documentation\n"

/-- The per-file separator block. -/
def separatorFor (p : String) : String := "\n---\n## Source: " ++ p ++ "\n---\n"

/-- Fenced literal wrapping of non-markdown content in `combine.ts`. -/
def fencedBlock (t : String) : String := "```\n" ++ t ++ "\n```"

/-- The fragment pushed for one file in `combine.ts`: raw when the
name ends in `.md`, fenced otherwise. -/
def fileFragment (nm text : String) : String :=
  if !(jsEndsWith nm ".md") then fencedBlock text else text

/-- Observable outcome of one run: a caught error (exit code 1, no
write), the no-files warning (exit code 0, no write), or a single
write of the combined text to the output path (exit code 0). -/
inductive RunResult where
  | errorExit (msg : String)
  | warnNoFiles
  | written (path : String) (text : String)
deriving DecidableEq

def exitCode : RunResult → Nat
  | .errorExit _ => 1
  | _ => 0

def writesOutput : RunResult → Bool
  | .written _ _ => true
  | _ => false

/-- The filesystem as observed by one run of `combine.ts`: whether the
source path exists and is a directory, the recursive listing (in
traversal order), the text of each full path (or a read error), and
whether the final write fails. -/
structure FileSystem where
  srcExists : Bool
  srcIsDir : Bool
  allFiles : List Dirent
  content : String → Except String String
  writeErr : Option String

/-- The filtered, sorted candidate list `files` of `combine.ts`. -/
def filesOf (fs : FileSystem) : List Dirent :=
  jsSortDirents (fs.allFiles.filter keepFile)

/-- The read loop of `combine.ts`: for each candidate in order, read
its full path and push the separator and the (raw or fenced) fragment;
the first failing read aborts. -/
def combineFiles (content : String → Except String String) :
    List Dirent → Except String (List String)
  | [] => .ok []
  | f :: rest =>
    match content (joinPath f.parentPath f.name) with
    | .error e => .error e
    | .ok text =>
      match combineFiles content rest with
      | .error e => .error e
      | .ok frags =>
        .ok (separatorFor (joinPath f.parentPath f.name) :: fileFragment f.name text :: frags)

/-- One run of `combine.ts` over an observed filesystem. -/
def runCombine (fs : FileSystem) (sourcePath outputPath : String) : RunResult :=
  if !fs.srcExists then .errorExit ("Source directory not found: " ++ sourcePath)
  else if !fs.srcIsDir then .errorExit ("Source path is not a directory: " ++ sourcePath)
  else if (filesOf fs).isEmpty then .warnNoFiles
  else
    match combineFiles fs.content (filesOf fs) with
    | .error e => .errorExit e
    | .ok frags =>
      match fs.writeErr with
      | some e => .errorExit e
      | none => .written outputPath (String.intercalate "\n" (titleLine :: frags))

/-! ### The allowlist variant

Its `readdir` call has no `withFileTypes`, so the listing is plain
relative-path strings (the `typeof file === 'string'` guard is always
true) and nothing in the pipeline ever consults a file type. -/

/-- The filesystem as observed by one run of the allowlist variant. -/
structure FileSystemMd where
  srcExists : Bool
  srcIsDir : Bool
  allEntries : List String
  content : String → Except String String
  writeErr : Option String

/-- `file.endsWith('.md') || file.endsWith('.mdx') || file.endsWith('.markdown')`. -/
def isMarkdownName (p : String) : Bool :=
  jsEndsWith p ".md" || jsEndsWith p ".mdx" || jsEndsWith p ".markdown"

/-- The filtered, sorted candidate list `markdownFiles`. -/
def markdownFilesOf (fs : FileSystemMd) : List String :=
  jsSortStrings (fs.allEntries.filter isMarkdownName)

/-- The read loop of the allowlist variant: separator labelled by the
relative path, raw content, reads at `join(sourcePath, relativePath)`. -/
def combineFilesMd (content : String → Except String String) (sourcePath : String) :
    List String → Except String (List String)
  | [] => .ok []
  | p :: rest =>
    match content (joinPath sourcePath p) with
    | .error e => .error e
    | .ok text =>
      match combineFilesMd content sourcePath rest with
      | .error e => .error e
      | .ok frags => .ok (separatorFor p :: text :: frags)

/-- One run of the allowlist variant over an observed filesystem. -/
def runCombineMd (fs : FileSystemMd) (sourcePath outputPath : String) : RunResult :=
  if !fs.srcExists then .errorExit ("Source directory not found: " ++ sourcePath)
  else if !fs.srcIsDir then .errorExit ("Source path is not a directory: " ++ sourcePath)
  else if (markdownFilesOf fs).isEmpty then .warnNoFiles
  else
    match combineFilesMd fs.content sourcePath (markdownFilesOf fs) with
    | .error e => .errorExit e
    | .ok frags =>
      match fs.writeErr with
      | some e => .errorExit e
      | none => .written outputPath (String.intercalate "\n" (titleLine :: frags))

/-- The fragment list the allowlist loop produces when every read
succeeds with the text given by `txt`. -/
def fragmentsMd (txt : String → String) : List String → List String
  | [] => []
  | p :: rest => separatorFor p :: txt p :: fragmentsMd txt rest

/-! ### Concrete filesystems used by individual claims -/

/-- A content oracle on which every read fails. -/
def noContent : String → Except String String := fun _ => .error "ENOENT"

/-- Contents of the three-file tree used for the ordering claim. -/
def contentC2 (p : String) : Except String String :=
  if p = "/docs/z.md" then .ok "Z"
  else if p = "/docs/a.md" then .ok "A"
  else if p = "/docs/b.txt" then .ok "B"
  else .error "ENOENT"

/-- A tree holding `a.md`, `b.txt`, `z.md`, recursively enumerated in
the order `z.md`, `a.md`, `b.txt` (directory enumeration order is not
specified to be sorted). -/
def fsC2 : FileSystem :=
  ⟨true, true,
   [⟨"/docs", "z.md", true⟩, ⟨"/docs", "a.md", true⟩, ⟨"/docs", "b.txt", true⟩],
   contentC2, none⟩

/-- A source path that does not exist. -/
def fsC5a : FileSystem := ⟨false, true, [], noContent, none⟩

/-- A tree whose only entry lies under `node_modules` and is filtered out. -/
def fsC6w : FileSystem :=
  ⟨true, true, [⟨"/s/node_modules", "x.md", true⟩], noContent, none⟩

/-- A tree with one candidate file whose read fails. -/
def fsC7w : FileSystem :=
  ⟨true, true, [⟨"/s", "a.md", true⟩],
   fun _ => .error "EACCES: permission denied", none⟩

/-- A one-file tree with readable content. -/
def fsC1w : FileSystemMd :=
  ⟨true, true, ["a.md"],
   fun p => if p = "/src/a.md" then .ok "Hello" else .error "ENOENT", none⟩

/-- Contents of the one-file tree used for the idempotence claim. -/
def contentC9a (p : String) : Except String String :=
  if p = "/src/a.md" then .ok "Hello" else .error "ENOENT"

/-- The first-run output for the tree `fsC9a`. -/
def outC9a : String :=
  "# Combined Documentation\n\n\n---\n## Source: a.md\n---\n\nHello"

/-- The tree as the first run observes it: one file `a.md`. -/
def fsC9a : FileSystemMd := ⟨true, true, ["a.md"], contentC9a, none⟩

/-- The same tree as the second run observes it: the output file of
the first run now exists inside the source directory. -/
def fsC9b : FileSystemMd :=
  ⟨true, true, ["a.md", "combined.md"],
   fun p => if p = "/src/combined.md" then .ok outC9a else contentC9a p, none⟩

/-- The second-run output for the tree `fsC9b`. -/
def outC9b : String :=
  "# Combined Documentation\n\n\n---\n## Source: a.md\n---\n\nHello\n\n---\n## Source: combined.md\n---\n\n# Combined Documentation\n\n\n---\n## Source: a.md\n---\n\nHello"

/-- A filesystem equal to `fsC9a` field by field, written differently. -/
def fsC9a2 : FileSystemMd :=
  ⟨true, true, ["a.md"],
   fun p => if p = "/src/a.md" then .ok "Hello" else .error "ENOENT", none⟩

/-- A tree whose only entry is a DIRECTORY named `docs.md`: reading it
as a file fails. -/
def fsC10w : FileSystemMd :=
  ⟨true, true, ["docs.md"],
   fun _ => .error "EISDIR: illegal operation on a directory", none⟩

end MDCombine

deriving instance DecidableEq for Except

namespace MDCombine

/-! ### Helper lemmas -/

/-- The two validation error messages differ for every source path. -/
theorem messages_distinct (s : String) :
    ("Source directory not found: " ++ s) ≠ ("Source path is not a directory: " ++ s) := by
  intro h
  have h2 := congrArg String.length h
  rw [String.length_append, String.length_append] at h2
  have e1 : ("Source directory not found: ").length = 28 := rfl
  have e2 : ("Source path is not a directory: ").length = 32 := rfl
  rw [e1, e2] at h2
  omega

/-- When every read succeeds, the allowlist loop returns the full
fragment list. -/
theorem combineFilesMd_ok (content : String → Except String String) (src : String)
    (txt : String → String) :
    ∀ l : List String, (∀ p ∈ l, content (joinPath src p) = .ok (txt p)) →
      combineFilesMd content src l = .ok (fragmentsMd txt l) := by
  intro l
  induction l with
  | nil => intro _; rfl
  | cons p rest ih =>
    intro h
    have hp : content (joinPath src p) = .ok (txt p) := h p (List.mem_cons_self p rest)
    have hr := ih (fun q hq => h q (List.mem_cons_of_mem p hq))
    simp [combineFilesMd, hp, hr, fragmentsMd]

/-- A failing read of any list member makes the allowlist loop fail. -/
theorem combineFilesMd_error_of_mem (content : String → Except String String) (src : String) :
    ∀ (l : List String) (p msg : String), p ∈ l →
      content (joinPath src p) = .error msg →
      ∃ m, combineFilesMd content src l = .error m := by
  intro l
  induction l with
  | nil => intro p msg h _; cases h
  | cons q rest ih =>
    intro p msg hmem herr
    cases hq : content (joinPath src q) with
    | error e => exact ⟨e, by simp [combineFilesMd, hq]⟩
    | ok text =>
      rcases List.mem_cons.1 hmem with he | hm
      · rw [he] at herr; simp [herr] at hq
      · obtain ⟨m, hm2⟩ := ih p msg hm herr
        exact ⟨m, by simp [combineFilesMd, hq, hm2]⟩

/-- Membership passes through stable insertion. -/
theorem mem_insertOrderedBy {α : Type} (lt : α → α → Bool) (x a : α) :
    ∀ l : List α, a ∈ insertOrderedBy lt x l ↔ a = x ∨ a ∈ l := by
  intro l
  induction l with
  | nil => simp [insertOrderedBy]
  | cons y ys ih =>
    by_cases h : lt y x = true
    · simp only [insertOrderedBy, h, if_true, List.mem_cons, ih]
      tauto
    · have h2 : lt y x = false := by
        cases hv : lt y x with
        | false => rfl
        | true => exact absurd hv h
      simp only [insertOrderedBy, h2, Bool.false_eq_true, if_false, List.mem_cons]

/-- Membership passes through the stable sort. -/
theorem mem_stableSortBy {α : Type} (lt : α → α → Bool) (a : α) :
    ∀ l : List α, a ∈ stableSortBy lt l ↔ a ∈ l := by
  intro l
  induction l with
  | nil => simp [stableSortBy]
  | cons x xs ih => simp [stableSortBy, mem_insertOrderedBy, ih]

/-- An entry of the listing whose name passes the allowlist is in the
candidate list. -/
theorem mem_markdownFilesOf (fs : FileSystemMd) (e : String)
    (hmem : e ∈ fs.allEntries) (hname : isMarkdownName e = true) :
    e ∈ markdownFilesOf fs := by
  rw [markdownFilesOf, jsSortStrings]
  exact (mem_stableSortBy _ _ _).2 (List.mem_filter.2 ⟨hmem, hname⟩)

/-- First occurrence search returns `none` when the key is absent. -/
theorem jsIndexOf_eq_none (x : String) :
    ∀ l : List String, x ∉ l → jsIndexOf l x = none := by
  intro l
  induction l with
  | nil => intro _; rfl
  | cons y ys ih =>
    intro h
    have hy : ¬(y = x) := fun he => h (List.mem_cons.2 (Or.inl he.symm))
    simp [jsIndexOf, hy, ih (fun hm => h (List.mem_cons_of_mem y hm))]

/-- First occurrence search finds the first occurrence. -/
theorem jsIndexOf_append_cons (x : String) (l2 : List String) :
    ∀ l1 : List String, x ∉ l1 → jsIndexOf (l1 ++ x :: l2) x = some l1.length := by
  intro l1
  induction l1 with
  | nil => intro _; simp [jsIndexOf]
  | cons y ys ih =>
    intro h
    have hy : ¬(y = x) := fun he => h (List.mem_cons.2 (Or.inl he.symm))
    simp [jsIndexOf, hy, ih (fun hm => h (List.mem_cons_of_mem y hm))]

/-- Indexing one past the first occurrence yields the following token. -/
theorem getD_append_cons_cons (x y d : String) (l2 : List String) :
    ∀ l1 : List String, (l1 ++ x :: y :: l2).getD (l1.length + 1) d = y := by
  intro l1
  induction l1 with
  | nil => rfl
  | cons a as ih => simpa [List.getD_cons_succ] using ih

end MDCombine

namespace MDCombine

/-! ### Claims -/

/-- C1: for every non-empty sorted candidate list (allowlist variant),
the combined document is the fixed title line followed, for each
candidate in order, by the separator block and that file content, all
fragments joined by newline separators, and this string is written
once to the resolved output path. -/
theorem combined_document_shape (fs : FileSystemMd) (src out : String)
    (txt : String → String)
    (h1 : fs.srcExists = true) (h2 : fs.srcIsDir = true)
    (h3 : markdownFilesOf fs ≠ [])
    (h4 : ∀ p ∈ markdownFilesOf fs, fs.content (joinPath src p) = .ok (txt p))
    (h5 : fs.writeErr = none) :
    runCombineMd fs src out =
      .written out (String.intercalate "\n"
        (titleLine :: fragmentsMd txt (markdownFilesOf fs))) := by
  have hok := combineFilesMd_ok fs.content src txt (markdownFilesOf fs) h4
  have hne : (markdownFilesOf fs).isEmpty = false := by
    cases hmf : markdownFilesOf fs with
    | nil => exact absurd hmf h3
    | cons a l => rfl
  simp [runCombineMd, h1, h2, hne, hok, h5]

/-- Witness for C1 at a one-file tree. -/
theorem combined_document_shape_witness :
    runCombineMd fsC1w "/src" "/src/combined.md" =
      .written "/src/combined.md"
        "# Combined Documentation\n\n\n---\n## Source: a.md\n---\n\nHello" := by
  have h := combined_document_shape fsC1w "/src" "/src/combined.md" (fun _ => "Hello")
    rfl rfl (by decide) (by decide) rfl
  exact h

/-- C2: the claim says the per-file blocks appear in sorted order; on
the denylist variant the default `Array#sort` applied to `Dirent`
objects compares the constant string conversion `[object Object]`, so
the (stable) sort leaves the traversal order unchanged: for a tree
holding `a.md`, `b.txt`, `z.md` enumerated as `z.md`, `a.md`, `b.txt`,
the output blocks stay in that unsorted traversal order. -/
theorem denylist_blocks_in_traversal_order :
    (filesOf fsC2).map Dirent.name = ["z.md", "a.md", "b.txt"] ∧
    runCombine fsC2 "/docs" "/docs/combined.md" =
      .written "/docs/combined.md"
        "# Combined Documentation\n\n\n---\n## Source: /docs/z.md\n---\n\nZ\n\n---\n## Source: /docs/a.md\n---\n\nA\n\n---\n## Source: /docs/b.txt\n---\n\n```\nB\n```" := by
  decide

/-- C3: the denylist pattern test is not the glob semantics the claim
states: the code turns `*.log` into the unanchored regex `.*.log`
whose dot matches any character, so the name `my.logbook.txt` IS
excluded by the code although it matches no pattern under the claimed
zero-or-more-characters glob reading, and a regular file of that name
is dropped. -/
theorem glob_pattern_divergence :
    isExcludedFileName "my.logbook.txt" = true ∧
    specGlobMatchesStr "*.log" "my.logbook.txt" = false ∧
    excludeFiles.any (fun pat => specGlobMatchesStr pat "my.logbook.txt") = false ∧
    keepFile ⟨"/docs", "my.logbook.txt", true⟩ = false := by
  decide

/-- C4: under the mixed-content policy the fragment appended for a
candidate whose read succeeded is the raw content when the filename
ends in `.md`, and the fenced literal block otherwise. -/
theorem mixed_content_policy (content : String → Except String String) (f : Dirent)
    (rest : List Dirent) (text : String)
    (h : content (joinPath f.parentPath f.name) = .ok text) :
    (jsEndsWith f.name ".md" = true →
      combineFiles content (f :: rest) =
        (combineFiles content rest).map
          (fun frags => separatorFor (joinPath f.parentPath f.name) :: text :: frags)) ∧
    (jsEndsWith f.name ".md" = false →
      combineFiles content (f :: rest) =
        (combineFiles content rest).map
          (fun frags =>
            separatorFor (joinPath f.parentPath f.name) :: fencedBlock text :: frags)) := by
  constructor <;> intro hmd <;>
    cases hr : combineFiles content rest <;>
      simp [combineFiles, h, hr, fileFragment, hmd, Except.map]

/-- Witness for C4: a markdown name stays raw, a non-markdown name is
fenced. -/
theorem mixed_content_policy_witness :
    combineFiles (fun _ => .ok "body") [⟨"/s", "notes.md", true⟩] =
      .ok [separatorFor "/s/notes.md", "body"] ∧
    combineFiles (fun _ => .ok "body") [⟨"/s", "data.txt", true⟩] =
      .ok [separatorFor "/s/data.txt", fencedBlock "body"] :=
  ⟨(mixed_content_policy (fun _ => .ok "body") ⟨"/s", "notes.md", true⟩ [] "body" rfl).1
      (by decide),
   (mixed_content_policy (fun _ => .ok "body") ⟨"/s", "data.txt", true⟩ [] "body" rfl).2
      (by decide)⟩

/-- C5: a missing source path fails with the source-not-found message,
an existing non-directory source fails with the distinct
not-a-directory message, and in either case the exit code is 1 and no
output file is written. -/
theorem source_validation (fs : FileSystem) (src out : String) :
    (fs.srcExists = false →
      runCombine fs src out = .errorExit ("Source directory not found: " ++ src) ∧
      exitCode (runCombine fs src out) = 1 ∧
      writesOutput (runCombine fs src out) = false) ∧
    (fs.srcExists = true → fs.srcIsDir = false →
      runCombine fs src out = .errorExit ("Source path is not a directory: " ++ src) ∧
      exitCode (runCombine fs src out) = 1 ∧
      writesOutput (runCombine fs src out) = false) ∧
    ("Source directory not found: " ++ src) ≠ ("Source path is not a directory: " ++ src) := by
  refine ⟨?_, ?_, messages_distinct src⟩
  · intro h
    have hr : runCombine fs src out = .errorExit ("Source directory not found: " ++ src) := by
      simp [runCombine, h]
    exact ⟨hr, by rw [hr]; rfl, by rw [hr]; rfl⟩
  · intro h1 h2
    have hr : runCombine fs src out = .errorExit ("Source path is not a directory: " ++ src) := by
      simp [runCombine, h1, h2]
    exact ⟨hr, by rw [hr]; rfl, by rw [hr]; rfl⟩

/-- Witness for C5 at a nonexistent source path. -/
theorem source_validation_witness :
    runCombine fsC5a "/nope" "./combined.md" =
      .errorExit ("Source directory not found: " ++ "/nope") ∧
    exitCode (runCombine fsC5a "/nope" "./combined.md") = 1 ∧
    writesOutput (runCombine fsC5a "/nope" "./combined.md") = false :=
  (source_validation fsC5a "/nope" "./combined.md").1 rfl

/-- C6: when the filtered candidate list is empty the run warns,
terminates successfully with exit code 0, and writes nothing. -/
theorem empty_candidates_noop (fs : FileSystem) (src out : String)
    (h1 : fs.srcExists = true) (h2 : fs.srcIsDir = true)
    (h3 : fs.allFiles.filter keepFile = []) :
    runCombine fs src out = .warnNoFiles ∧
    exitCode (runCombine fs src out) = 0 ∧
    writesOutput (runCombine fs src out) = false := by
  have hf : filesOf fs = [] := by rw [filesOf, h3]; rfl
  have hr : runCombine fs src out = .warnNoFiles := by simp [runCombine, h1, h2, hf]
  exact ⟨hr, by rw [hr]; rfl, by rw [hr]; rfl⟩

/-- Witness for C6 at a tree whose only file sits under `node_modules`. -/
theorem empty_candidates_noop_witness :
    runCombine fsC6w "/s" "./combined.md" = .warnNoFiles ∧
    exitCode (runCombine fsC6w "/s" "./combined.md") = 0 ∧
    writesOutput (runCombine fsC6w "/s" "./combined.md") = false :=
  empty_candidates_noop fsC6w "/s" "./combined.md" rfl rfl (by decide)

/-- C7: every failing stage (validation, a file read, the final write)
yields an error exit, and an error exit has exit code 1 and writes no
output, so no partial output ever reaches the output path. -/
theorem pipeline_error_no_output (fs : FileSystem) (src out : String) :
    ((fs.srcExists = false ∨ fs.srcIsDir = false) →
      ∃ m, runCombine fs src out = .errorExit m) ∧
    (∀ e, fs.srcExists = true → fs.srcIsDir = true →
      combineFiles fs.content (filesOf fs) = .error e →
      runCombine fs src out = .errorExit e) ∧
    (∀ e frags, fs.srcExists = true → fs.srcIsDir = true →
      combineFiles fs.content (filesOf fs) = .ok frags →
      (filesOf fs).isEmpty = false → fs.writeErr = some e →
      runCombine fs src out = .errorExit e) ∧
    (∀ m, runCombine fs src out = .errorExit m →
      exitCode (runCombine fs src out) = 1 ∧
      writesOutput (runCombine fs src out) = false) := by
  refine ⟨?_, ?_, ?_, ?_⟩
  · intro h
    cases hex : fs.srcExists with
    | false => exact ⟨"Source directory not found: " ++ src, by simp [runCombine, hex]⟩
    | true =>
      cases h with
      | inl hl => rw [hex] at hl; cases hl
      | inr hr =>
        exact ⟨"Source path is not a directory: " ++ src, by simp [runCombine, hex, hr]⟩
  · intro e h1 h2 he
    have hne : (filesOf fs).isEmpty = false := by
      cases hl : filesOf fs with
      | nil => rw [hl] at he; simp [combineFiles] at he
      | cons a l => rfl
    simp [runCombine, h1, h2, hne, he]
  · intro e frags h1 h2 hok hne hw
    simp [runCombine, h1, h2, hne, hok, hw]
  · intro m hm
    exact ⟨by rw [hm]; rfl, by rw [hm]; rfl⟩

/-- Witness for C7 at a tree whose single candidate read fails. -/
theorem pipeline_error_no_output_witness :
    runCombine fsC7w "/s" "/out.md" = .errorExit "EACCES: permission denied" :=
  (pipeline_error_no_output fsC7w "/s" "/out.md").2.1 "EACCES: permission denied" rfl rfl
    (by decide)

/-- C8: the argument resolver returns the token immediately following
the first occurrence of the flag, and the default when the flag is
absent or is the last token. -/
theorem arg_resolver (args : List String) (flag d : String) :
    (flag ∉ args → getArgValue args flag d = d) ∧
    (∀ l1 x l2, args = l1 ++ flag :: x :: l2 → flag ∉ l1 →
      getArgValue args flag d = x) ∧
    (∀ l1, args = l1 ++ [flag] → flag ∉ l1 → getArgValue args flag d = d) := by
  refine ⟨?_, ?_, ?_⟩
  · intro h
    simp [getArgValue, jsIndexOf_eq_none flag args h]
  · intro l1 x l2 he h
    subst he
    have hi := jsIndexOf_append_cons flag (x :: l2) l1 h
    have hlt : l1.length + 1 < (l1 ++ flag :: x :: l2).length := by
      simp [List.length_append]
    simp only [getArgValue, hi]
    rw [if_pos hlt]
    exact getD_append_cons_cons flag x d l2 l1
  · intro l1 he h
    subst he
    have hi := jsIndexOf_append_cons flag [] l1 h
    have hlt : ¬(l1.length + 1 < (l1 ++ [flag]).length) := by
      simp [List.length_append]
    simp [getArgValue, hi, hlt]

/-- Witness for C8: flag followed by a value, flag as last token, and
absent flag. -/
theorem arg_resolver_witness :
    getArgValue ["bun", "combine.ts", "--src", "./docs"] "--src" "." = "./docs" ∧
    getArgValue ["bun", "combine.ts", "--src"] "--src" "." = "." ∧
    getArgValue ["bun", "combine.ts"] "--src" "." = "." :=
  ⟨(arg_resolver ["bun", "combine.ts", "--src", "./docs"] "--src" ".").2.1
      ["bun", "combine.ts"] "./docs" [] rfl (by decide),
   (arg_resolver ["bun", "combine.ts", "--src"] "--src" ".").2.2
      ["bun", "combine.ts"] rfl (by decide),
   (arg_resolver ["bun", "combine.ts"] "--src" ".").1 (by decide)⟩

/-- C9 counterexample: with the output path inside the source
directory, the second run sees the first-run output file as a further
candidate and writes strictly different content, refuting the claimed
identical-content rerun. -/
theorem rerun_inside_source_differs :
    runCombineMd fsC9a "/src" "/src/combined.md" = .written "/src/combined.md" outC9a ∧
    runCombineMd fsC9b "/src" "/src/combined.md" = .written "/src/combined.md" outC9b ∧
    outC9b ≠ outC9a := by
  refine ⟨rfl, rfl, ?_⟩
  decide

/-- C9 amended: the run is a pure function of the observed tree, so a
second run observing the same listing and the same file contents (in
particular whenever the output path lies outside the source
directory) writes identical content. -/
theorem run_function_of_observed_tree (fs1 fs2 : FileSystemMd) (src out : String)
    (h1 : fs1.srcExists = fs2.srcExists) (h2 : fs1.srcIsDir = fs2.srcIsDir)
    (h3 : fs1.allEntries = fs2.allEntries)
    (h4 : ∀ p, fs1.content p = fs2.content p)
    (h5 : fs1.writeErr = fs2.writeErr) :
    runCombineMd fs1 src out = runCombineMd fs2 src out := by
  cases fs1 with
  | mk a1 b1 c1 d1 e1 =>
    cases fs2 with
    | mk a2 b2 c2 d2 e2 =>
      have hc : d1 = d2 := funext h4
      simp only at h1 h2 h3 h5
      subst h1; subst h2; subst h3; subst h5; subst hc
      rfl

/-- Witness for the C9 amended theorem at two field-wise equal trees. -/
theorem run_function_of_observed_tree_witness :
    runCombineMd fsC9a "/src" "/src/combined.md" =
      runCombineMd fsC9a2 "/src" "/src/combined.md" :=
  run_function_of_observed_tree fsC9a fsC9a2 "/src" "/src/combined.md"
    rfl rfl rfl (fun _ => rfl) rfl

/-- C10: allowlist membership depends only on the relative path string
ending in a markdown extension, so an entry that is a directory with
such a name is in the candidate list, and when reading it fails the
run reaches the read step and exits with an error. -/
theorem allowlist_ignores_file_type (fs : FileSystemMd) (src out e msg : String)
    (h1 : fs.srcExists = true) (h2 : fs.srcIsDir = true)
    (hmem : e ∈ fs.allEntries) (hname : isMarkdownName e = true)
    (hread : fs.content (joinPath src e) = .error msg) :
    e ∈ markdownFilesOf fs ∧ ∃ m, runCombineMd fs src out = .errorExit m := by
  have hin := mem_markdownFilesOf fs e hmem hname
  obtain ⟨m, hm⟩ :=
    combineFilesMd_error_of_mem fs.content src (markdownFilesOf fs) e msg hin hread
  have hne : (markdownFilesOf fs).isEmpty = false := by
    cases hl : markdownFilesOf fs with
    | nil => rw [hl] at hin; cases hin
    | cons a l => rfl
  exact ⟨hin, m, by simp [runCombineMd, h1, h2, hne, hm]⟩

/-- Witness for C10 at a tree whose only entry is a directory named
`docs.md`. -/
theorem allowlist_ignores_file_type_witness :
    "docs.md" ∈ markdownFilesOf fsC10w ∧
    ∃ m, runCombineMd fsC10w "/src" "/out.md" = .errorExit m :=
  allowlist_ignores_file_type fsC10w "/src" "/out.md" "docs.md"
    "EISDIR: illegal operation on a directory" rfl rfl (by decide) (by decide) rfl

end MDCombine
